import Mathlib

/-!
Verification development for the conditional form-state engine of
@adimis/react-formix (src/hooks/useSchemaForm.tsx, src/utils/checkRemoveValidationCondition.ts,
src/utils/removeValidationCheck.ts).

The TypeScript code is shallowly embedded: JavaScript primitive values are
modelled by the inductive type Value (undefined, null, booleans, numbers as
integers, strings restricted to Unicode scalar sequences — the fragment the
form engine actually manipulates; NaN, signed zero and non-integer numbers
are outside the modelled universe).  JavaScript objects used as value
snapshots are association lists with first-match lookup; nested error
structures are the JSON-like type JsValue.  Stateful React pieces
(useState setters, the submit lifecycle with try/catch/finally) become
explicit state threading; callbacks that may throw are functions into
Except.
-/

namespace Formix

/-- A JavaScript primitive value as it occurs in form snapshots.  Numbers are
modelled as integers and strings as Lean strings (Unicode scalar values). -/
inductive Value where
  | undef : Value
  | null : Value
  | bool : Bool → Value
  | num : Int → Value
  | str : String → Value
deriving DecidableEq, Repr

/-- A form-value snapshot: a JavaScript object mapping field keys to values,
modelled as an association list with first-match lookup (object keys are
unique, so first-match agrees with object semantics). -/
abbrev Snapshot := List (String × Value)

/-- Property access formResponse[dependentField]: an absent key reads as
undefined. -/
def lookupField (resp : Snapshot) (k : String) : Value :=
  match resp.find? (fun p => p.1 == k) with
  | some p => p.2
  | none => Value.undef

/-- The six comparison operators admitted by DisplayCondition and
ValidationCondition in src/interface/form.interface.ts. -/
inductive Operator where
  | eq : Operator
  | ne : Operator
  | lt : Operator
  | le : Operator
  | gt : Operator
  | ge : Operator
deriving DecidableEq, Repr

/-- A single condition, as in the ValidationCondition / DisplayCondition
interfaces.  The vestigial optional relation field is never read by the
code and is omitted. -/
structure Condition where
  dependentField : String
  operator : Operator
  dependentFieldValue : Value
deriving DecidableEq, Repr

/-- JavaScript strict equality on the modelled primitive universe.  With
NaN and signed zero outside the universe, strict equality coincides with
structural equality: values of different runtime types are never equal and
no coercion happens. -/
def strictEq (a b : Value) : Bool := a == b

/-- JavaScript ToNumber on a string, restricted to the integer-valued
fragment representable in this universe: surrounding spaces are trimmed,
the empty string converts to 0, an optional sign followed by decimal
digits converts to the denoted integer, and anything else is NaN
(modelled as none). -/
def strToNumber (s : String) : Option Int :=
  let t := ((s.toList.dropWhile (fun c => c = ' ')).reverse.dropWhile
      (fun c => c = ' ')).reverse
  let digits : List Char → Option Int := fun ds =>
    if ds ≠ [] ∧ ds.all Char.isDigit then
      some ((ds.foldl (fun a c => a * 10 + (c.toNat - 48)) 0 : Nat) : Int)
    else none
  match t with
  | [] => some 0
  | '-' :: ds => (digits ds).map (fun n => -n)
  | '+' :: ds => digits ds
  | ds => digits ds

/-- JavaScript ToNumber on the modelled universe; none stands for NaN. -/
def toNumber : Value → Option Int
  | Value.undef => none
  | Value.null => some 0
  | Value.bool b => some (if b then 1 else 0)
  | Value.num n => some n
  | Value.str s => strToNumber s

/-- The ECMAScript abstract relational comparison a < b on the modelled
universe: two strings compare lexicographically; otherwise both sides are
converted with ToNumber and none (an undefined comparison result from NaN)
is returned when either conversion fails. -/
def jsLtPrim (a b : Value) : Option Bool :=
  match a, b with
  | Value.str s, Value.str t => some (decide (s < t))
  | _, _ =>
    match toNumber a, toNumber b with
    | some x, some y => some (decide (x < y))
    | _, _ => none

/-- The JavaScript operator a < b: an undefined relational result yields
false. -/
def jsLt (a b : Value) : Bool := (jsLtPrim a b).getD false

/-- The JavaScript operator a > b, evaluated as the relational comparison
b < a with undefined mapped to false. -/
def jsGt (a b : Value) : Bool := (jsLtPrim b a).getD false

/-- The JavaScript operator a <= b: the negation of b < a, except that an
undefined relational result yields false. -/
def jsLe (a b : Value) : Bool :=
  match jsLtPrim b a with
  | some r => !r
  | none => false

/-- The JavaScript operator a >= b: the negation of a < b, except that an
undefined relational result yields false. -/
def jsGe (a b : Value) : Bool :=
  match jsLtPrim a b with
  | some r => !r
  | none => false

/-- The body of the condition callback inside checkRemoveValidationCondition
(src/utils/checkRemoveValidationCondition.ts, lines 38-57): reads the
dependent field from the snapshot and applies the operator.  A pure, total
function: it never throws and has no side effects. -/
def evalCondition (c : Condition) (resp : Snapshot) : Bool :=
  let actualValue := lookupField resp c.dependentField
  match c.operator with
  | Operator.eq => strictEq actualValue c.dependentFieldValue
  | Operator.ne => !(strictEq actualValue c.dependentFieldValue)
  | Operator.lt => jsLt actualValue c.dependentFieldValue
  | Operator.le => jsLe actualValue c.dependentFieldValue
  | Operator.gt => jsGt actualValue c.dependentFieldValue
  | Operator.ge => jsGe actualValue c.dependentFieldValue

/-- checkRemoveValidationCondition(data?, formResponse?): returns false when
either argument is undefined (the guard !data || !formResponse; note that an
empty array and an empty object are truthy in JavaScript, so they pass the
guard), otherwise data.every(condition => ...).  Optional arguments are
modelled with Option. -/
def checkRemoveValidationCondition (data : Option (List Condition))
    (formResponse : Option Snapshot) : Bool :=
  match data, formResponse with
  | some conds, some resp => conds.all (fun c => evalCondition c resp)
  | _, _ => false

/-- A JSON-like JavaScript value, used for react-hook-form error structures:
a primitive, an array, or an object (association list of string keys). -/
inductive JsValue where
  | prim : Value → JsValue
  | arr : List JsValue → JsValue
  | obj : List (String × JsValue) → JsValue

mutual

/-- stripRefsFromErrors (src/hooks/useSchemaForm.tsx, lines 531-544): arrays
are mapped elementwise; objects are rebuilt keeping every key except ref,
with values recursively stripped; primitives (including null, which fails
the obj truthiness guard) are returned unchanged. -/
def stripRefsFromErrors : JsValue → JsValue
  | JsValue.prim v => JsValue.prim v
  | JsValue.arr xs => JsValue.arr (stripRefsArr xs)
  | JsValue.obj fs => JsValue.obj (stripRefsObj fs)

/-- Elementwise recursion of stripRefsFromErrors over an array. -/
def stripRefsArr : List JsValue → List JsValue
  | [] => []
  | x :: xs => stripRefsFromErrors x :: stripRefsArr xs

/-- Recursion of stripRefsFromErrors over the entries of an object: entries
keyed ref are dropped, all others are kept with stripped values. -/
def stripRefsObj : List (String × JsValue) → List (String × JsValue)
  | [] => []
  | (k, v) :: fs =>
    if k = "ref" then stripRefsObj fs
    else (k, stripRefsFromErrors v) :: stripRefsObj fs

end

/-- A per-field validation rule, abstracting the Zod validator: applied to
the field's current value it reports none (pass) or some error message. -/
abbrev ValidationRule := Value → Option String

/-- The logic-relevant part of IFieldSchema
(src/interface/form.interface.ts): key, optional Zod validation, optional
display conditions, optional remove-validation conditions, optional default
value.  Render-time metadata is inert and omitted. -/
structure IFieldSchema where
  key : String
  validations : Option ValidationRule := none
  displayConditions : Option (List Condition) := none
  removeValidationConditions : Option (List Condition) := none
  defaultValue : Option Value := none

/-- The lookup schema.find(field => field.key === key)?.removeValidationConditions
shared by both remove-validation passes: undefined both when no field
matches and when the matching field has no removeValidationConditions. -/
def findRemoveConds (schema : List IFieldSchema) (key : String) :
    Option (List Condition) :=
  match schema.find? (fun f => f.key == key) with
  | some f => f.removeValidationConditions
  | none => none

/-- The canRemoveValidationForFields React state: a finite map from field
keys to booleans, modelled as a function into Option Bool (none = key not
yet written). -/
abbrev ExemptionMap := String → Option Bool

/-- One setCanRemoveValidationFor(prev => ({...prev, [key]: v})) update. -/
def updateExemption (m : ExemptionMap) (key : String) (v : Bool) :
    ExemptionMap :=
  fun k => if k = key then some v else m k

/-- The common per-key loop of onErrorRemoveValidationCheck and
onChangeRemoveValidationCheck (src/utils/removeValidationCheck.ts): for each
key, look up the field's removeValidationConditions, run
checkRemoveValidationCondition against the form response, record the result
in the canRemoveValidationFor state, and collect the boolean.  Returns the
collected booleans in order together with the final state. -/
def removeValidationPass (schema : List IFieldSchema) (formResponse : Snapshot) :
    List String → ExemptionMap → List Bool × ExemptionMap
  | [], st => ([], st)
  | key :: ks, st =>
    let approved :=
      checkRemoveValidationCondition (findRemoveConds schema key) (some formResponse)
    let r := removeValidationPass schema formResponse ks (updateExemption st key approved)
    (approved :: r.1, r.2)

/-- onErrorRemoveValidationCheck (src/utils/removeValidationCheck.ts, lines
5-52): runs the per-key pass over Object.keys(errors) and returns
allRemoveValidationChecks.every(valid => valid) together with the updated
exemption state.  On the modelled universe the body cannot throw, so the
rethrowing catch clause is unreachable. -/
def onErrorRemoveValidationCheck (errors : List (String × JsValue))
    (schema : List IFieldSchema) (formResponse : Snapshot)
    (st : ExemptionMap) : Bool × ExemptionMap :=
  let r := removeValidationPass schema formResponse (errors.map Prod.fst) st
  (r.1.all id, r.2)

/-- onChangeRemoveValidationCheck (src/utils/removeValidationCheck.ts, lines
54-91): runs the same per-key pass over Object.keys(formResponse) and
returns the list of per-key booleans together with the updated exemption
state. -/
def onChangeRemoveValidationCheck (schema : List IFieldSchema)
    (formResponse : Snapshot) (st : ExemptionMap) :
    List Bool × ExemptionMap :=
  removeValidationPass schema formResponse (formResponse.map Prod.fst) st

/-- Which externally supplied callback a submit handler invoked, and with
what argument. -/
inductive Dispatched where
  | successCb : Snapshot → Dispatched
  | failureCb : List (String × JsValue) → Dispatched
  | noCb : Dispatched

/-- The observable outcome of one run of a submit handler: the callback
dispatched, the final exemption state, the submit-loading flag after the
lifecycle completed, any error propagated to the caller, and the errors
logged by the engine (console.error). -/
structure SubmitRun where
  dispatched : Dispatched
  exemptions : ExemptionMap
  submitButtonLoading : Bool
  propagated : Option String
  logged : List String

/-- The try/catch/finally around one awaited callback invocation: a thrown
(rejected) callback error is logged and swallowed, and the finally clause
clears the loading flag. -/
def runCallback (d : Dispatched) (ex : ExemptionMap)
    (result : Except String Unit) : SubmitRun :=
  match result with
  | Except.ok _ =>
    { dispatched := d, exemptions := ex, submitButtonLoading := false,
      propagated := none, logged := [] }
  | Except.error e =>
    { dispatched := d, exemptions := ex, submitButtonLoading := false,
      propagated := none, logged := [e] }

/-- The engine log produced by one awaited callback result: a thrown
(rejected) error is recorded by the catch clause's console.error, a normal
return logs nothing. -/
def loggedOf (res : Except String Unit) : List String :=
  match res with
  | Except.ok _ => []
  | Except.error e => [e]

/-- handleOnSubmit (src/hooks/useSchemaForm.tsx, lines 506-520): sets the
loading flag, awaits the optional onSubmit callback inside
try/catch(log)/finally(clear loading).  The exemption state is untouched. -/
def handleOnSubmit (onSubmit : Option (Snapshot → Except String Unit))
    (values : Snapshot) (st : ExemptionMap) : SubmitRun :=
  match onSubmit with
  | some cb => runCallback (Dispatched.successCb values) st (cb values)
  | none =>
    { dispatched := Dispatched.noCb, exemptions := st,
      submitButtonLoading := false, propagated := none, logged := [] }

/-- handleOnInvalidSubmit (src/hooks/useSchemaForm.tsx, lines 526-587):
sanitizes the error object with stripRefsFromErrors; when conditional
rendering is enabled it runs onErrorRemoveValidationCheck on the sanitized
errors against formMethods.getValues(), and if that check passes and an
onSubmit callback exists it awaits onSubmit(formResponse), otherwise it
awaits onInvalidSubmit(sanitizedErrors) when present; when conditional
rendering is disabled it goes directly to onInvalidSubmit(sanitizedErrors).
Every callback invocation sits inside try/catch(log)/finally(clear
loading). -/
def handleOnInvalidSubmit (enableConditionalRendering : Bool)
    (onSubmit : Option (Snapshot → Except String Unit))
    (onInvalidSubmit : Option (List (String × JsValue) → Except String Unit))
    (errors : List (String × JsValue)) (schema : List IFieldSchema)
    (formResponse : Snapshot) (st : ExemptionMap) : SubmitRun :=
  let sanitizedErrors := stripRefsObj errors
  if enableConditionalRendering then
    let r := onErrorRemoveValidationCheck sanitizedErrors schema formResponse st
    match r.1, onSubmit with
    | true, some cb =>
      runCallback (Dispatched.successCb formResponse) r.2 (cb formResponse)
    | _, _ =>
      match onInvalidSubmit with
      | some cb =>
        runCallback (Dispatched.failureCb sanitizedErrors) r.2 (cb sanitizedErrors)
      | none =>
        { dispatched := Dispatched.noCb, exemptions := r.2,
          submitButtonLoading := false, propagated := none, logged := [] }
  else
    match onInvalidSubmit with
    | some cb =>
      runCallback (Dispatched.failureCb sanitizedErrors) st (cb sanitizedErrors)
    | none =>
      { dispatched := Dispatched.noCb, exemptions := st,
        submitButtonLoading := false, propagated := none, logged := [] }

/-- Modelled from the spec: generateDynamicSchema together with the Zod
resolver is not under src/ (only its import and call sites are).  Following
sections 4.4 and 7 of the spec, the compiled schema checks each field with
a validation rule against the field's current value and reports a
FieldValidationError (key and message) per failing field; fields without a
rule accept any value. -/
def generateDynamicSchema (schema : List IFieldSchema) (resp : Snapshot) :
    List (String × String) :=
  schema.filterMap (fun f =>
    match f.validations with
    | some rule => (rule (lookupField resp f.key)).map (fun msg => (f.key, msg))
    | none => none)

/-- The resolver wiring of useForm (src/hooks/useSchemaForm.tsx, line 499):
resolver is zodResolver(zodSchema) when enableValidations is true and
undefined otherwise; with no resolver installed, no validation error is
ever reported.  The validation run itself is modelled from the spec (4.4). -/
def formResolver (enableValidations : Bool) (schema : List IFieldSchema)
    (resp : Snapshot) : List (String × String) :=
  if enableValidations then generateDynamicSchema schema resp else []

/-- Modelled from the spec: react-hook-form's handleSubmit dispatcher is
external.  Per section 4.5, a submit runs the resolver's validation and
takes the valid path (handleOnSubmit) when there are no errors, else the
invalid path (handleOnInvalidSubmit) with the error object. -/
def submitDispatch (enableValidations enableConditionalRendering : Bool)
    (onSubmit : Option (Snapshot → Except String Unit))
    (onInvalidSubmit : Option (List (String × JsValue) → Except String Unit))
    (schema : List IFieldSchema) (resp : Snapshot) (st : ExemptionMap) :
    SubmitRun :=
  let errors := formResolver enableValidations schema resp
  if errors.isEmpty then handleOnSubmit onSubmit resp st
  else
    handleOnInvalidSubmit enableConditionalRendering onSubmit onInvalidSubmit
      (errors.map (fun e => (e.1, JsValue.obj [("message", JsValue.prim (Value.str e.2))])))
      schema resp st

/-- Modelled from the spec: updateFieldVisibility is not under src/ (only
its import and call site are).  Per section 4.2, a field is visible iff its
displayConditions list is empty or absent, or every condition in it
evaluates true against the snapshot. -/
def updateFieldVisibility (schema : List IFieldSchema) (resp : Snapshot) :
    List String :=
  (schema.filter (fun f =>
    match f.displayConditions with
    | some conds => conds.all (fun c => evalCondition c resp)
    | none => true)).map (fun f => f.key)

/-- The reactive engine state held by useSchemaForm: the visible-field set
and the canRemoveValidationForFields exemption map. -/
structure EngineState where
  visibleFields : List String
  canRemoveValidationForFields : ExemptionMap

/-- The initial engine state (src/hooks/useSchemaForm.tsx, lines 473-479):
visibleFields starts as the set of all schema keys and the exemption map
starts empty. -/
def initEngineState (schema : List IFieldSchema) : EngineState :=
  { visibleFields := schema.map (fun f => f.key),
    canRemoveValidationForFields := fun _ => none }

/-- The conditional-rendering effect (src/hooks/useSchemaForm.tsx, lines
616-625): on a form-value change, when enableConditionalRendering is true
it reruns onChangeRemoveValidationCheck and updateFieldVisibility;
otherwise it does nothing. -/
def conditionalRenderingEffect (enableConditionalRendering : Bool)
    (schema : List IFieldSchema) (formValues : Snapshot)
    (st : EngineState) : EngineState :=
  if enableConditionalRendering then
    { visibleFields := updateFieldVisibility schema formValues,
      canRemoveValidationForFields :=
        (onChangeRemoveValidationCheck schema formValues
          st.canRemoveValidationForFields).2 }
  else st

/-- The per-key exemption decision both remove-validation passes compute for
a key: the pure condition check of the key's field against the snapshot. -/
def exemptionFor (schema : List IFieldSchema) (resp : Snapshot)
    (key : String) : Bool :=
  checkRemoveValidationCondition (findRemoveConds schema key) (some resp)

/-- Object-property lookup in a JsValue object entry list. -/
def objLookup (fs : List (String × JsValue)) (k : String) : Option JsValue :=
  (fs.find? (fun p => p.1 == k)).map Prod.snd

/-- Two values are ordering-comparable in the JavaScript sense: either both
are strings (compared lexicographically) or both convert to numbers under
ToNumber; otherwise every relational operator on them yields false. -/
def orderComparable (a b : Value) : Bool :=
  match a, b with
  | Value.str _, Value.str _ => true
  | _, _ => (toNumber a).isSome && (toNumber b).isSome

/-- The password field's remove-validation condition from the example form
in src/App.tsx: exempt when email is strictly unequal to the admin
address. -/
def samplePasswordCond : Condition :=
  ⟨"email", Operator.ne, Value.str "admin@adimis.in"⟩

/-- A field whose validation is exempted whenever samplePasswordCond holds. -/
def sampleFieldA : IFieldSchema :=
  { key := "a", removeValidationConditions := some [samplePasswordCond] }

/-- A field with no removeValidationConditions: never exempted. -/
def sampleFieldB : IFieldSchema := { key := "b" }

/-- A field carrying an explicitly empty removeValidationConditions list. -/
def sampleFieldEmptyConds : IFieldSchema :=
  { key := "a", removeValidationConditions := some [] }

/-- Two-field schema for the two-errors-one-exempted submit scenario. -/
def sampleSchemaD : List IFieldSchema := [sampleFieldA, sampleFieldB]

/-- Snapshot in which samplePasswordCond holds (email differs from the
admin address), so field a is exempted while field b is not. -/
def sampleRespD : Snapshot := [("email", Value.str "other@x.com")]

/-- A validation-error object with errors on fields a and b; the error on a
carries an internal ref entry. -/
def sampleErrorsD : List (String × JsValue) :=
  [("a", JsValue.obj [("message", JsValue.prim (Value.str "too short")),
                      ("ref", JsValue.prim Value.null)]),
   ("b", JsValue.obj [("message", JsValue.prim (Value.str "required"))])]

/-- A react-hook-form field error carrying message, type, an internal ref
and a criteria-mode types entry. -/
def sampleFieldError : List (String × JsValue) :=
  [("type", JsValue.prim (Value.str "min")),
   ("message", JsValue.prim (Value.str "too short")),
   ("ref", JsValue.prim Value.null),
   ("types", JsValue.arr [JsValue.prim (Value.str "min"),
                          JsValue.prim (Value.str "max")])]

theorem removeValidationPass_fst (schema : List IFieldSchema)
    (resp : Snapshot) :
    ∀ (ks : List String) (st : ExemptionMap),
      (removeValidationPass schema resp ks st).1 =
        ks.map (exemptionFor schema resp) := by
  intro ks
  induction ks with
  | nil => intro st; rfl
  | cons k ks ih =>
    intro st
    simp only [removeValidationPass, List.map_cons, exemptionFor]
    exact congrArg _ (ih _)

theorem removeValidationPass_snd (schema : List IFieldSchema)
    (resp : Snapshot) :
    ∀ (ks : List String) (st : ExemptionMap) (k : String),
      (removeValidationPass schema resp ks st).2 k =
        if k ∈ ks then some (exemptionFor schema resp k) else st k := by
  intro ks
  induction ks with
  | nil => intro st k; simp [removeValidationPass]
  | cons key ks ih =>
    intro st k
    simp only [removeValidationPass]
    rw [ih]
    by_cases hks : k ∈ ks
    · simp [hks]
    · by_cases hk : k = key
      · subst hk
        simp [hks, updateExemption, exemptionFor]
      · simp [hks, hk, updateExemption, List.mem_cons]

theorem stripRefsArr_eq_map (xs : List JsValue) :
    stripRefsArr xs = xs.map stripRefsFromErrors := by
  induction xs with
  | nil => rfl
  | cons x xs ih => simp [stripRefsArr, ih]

theorem stripRefsObj_keys_of_no_ref (fs : List (String × JsValue))
    (h : "ref" ∉ fs.map Prod.fst) :
    (stripRefsObj fs).map Prod.fst = fs.map Prod.fst := by
  induction fs with
  | nil => rfl
  | cons p fs ih =>
    simp only [List.map_cons, List.mem_cons] at h
    push_neg at h
    have hk : p.1 ≠ "ref" := fun hc => h.1 hc.symm
    obtain ⟨k, v⟩ := p
    simp only [stripRefsObj]
    rw [if_neg hk]
    simp [ih h.2]

theorem stripRefsObj_lookup (fs : List (String × JsValue)) (k : String) :
    objLookup (stripRefsObj fs) k =
      if k = "ref" then none
      else (objLookup fs k).map stripRefsFromErrors := by
  induction fs with
  | nil => simp [stripRefsObj, objLookup]
  | cons p fs ih =>
    obtain ⟨key, v⟩ := p
    by_cases href : key = "ref"
    · subst href
      have h1 : stripRefsObj (("ref", v) :: fs) = stripRefsObj fs := by
        simp [stripRefsObj]
      rw [h1, ih]
      by_cases hk : k = "ref"
      · simp [hk]
      · have hb : ¬ ((fun p => p.1 == k) (("ref", v) : String × JsValue)) = true := by
          simp only [beq_iff_eq]
          exact fun hc => hk hc.symm
        have h2 : objLookup (("ref", v) :: fs) k = objLookup fs k := by
          unfold objLookup
          rw [List.find?_cons_of_neg (p := fun (q : String × JsValue) => q.1 == k) _ hb]
        rw [if_neg hk, if_neg hk, h2]
    · have h1 : stripRefsObj ((key, v) :: fs) =
          (key, stripRefsFromErrors v) :: stripRefsObj fs := by
        simp [stripRefsObj, href]
      rw [h1]
      by_cases hk : k = key
      · subst hk
        have p1 : ((fun p => p.1 == k) ((k, stripRefsFromErrors v) : String × JsValue)) = true := by
          simp only [beq_iff_eq]
        have p2 : ((fun p => p.1 == k) ((k, v) : String × JsValue)) = true := by
          simp only [beq_iff_eq]
        have e1 : objLookup ((k, stripRefsFromErrors v) :: stripRefsObj fs) k =
            some (stripRefsFromErrors v) := by
          unfold objLookup
          rw [List.find?_cons_of_pos (p := fun (q : String × JsValue) => q.1 == k) _ p1]
          rfl
        have e2 : objLookup ((k, v) :: fs) k = some v := by
          unfold objLookup
          rw [List.find?_cons_of_pos (p := fun (q : String × JsValue) => q.1 == k) _ p2]
          rfl
        rw [e1, if_neg href, e2]
        rfl
      · have hb : ¬ ((fun p => p.1 == k) ((key, v) : String × JsValue)) = true := by
          simp only [beq_iff_eq]
          exact fun hc => hk hc.symm
        have hb' : ¬ ((fun p => p.1 == k) ((key, stripRefsFromErrors v) : String × JsValue)) = true := hb
        have e1 : objLookup ((key, stripRefsFromErrors v) :: stripRefsObj fs) k =
            objLookup (stripRefsObj fs) k := by
          unfold objLookup
          rw [List.find?_cons_of_neg (p := fun (q : String × JsValue) => q.1 == k) _ hb']
        have e2 : objLookup ((key, v) :: fs) k = objLookup fs k := by
          unfold objLookup
          rw [List.find?_cons_of_neg (p := fun (q : String × JsValue) => q.1 == k) _ hb]
        rw [e1, e2, ih]

theorem runCallback_dispatched (d : Dispatched) (ex : ExemptionMap)
    (res : Except String Unit) : (runCallback d ex res).dispatched = d := by
  cases res <;> rfl

theorem runCallback_contained (d : Dispatched) (ex : ExemptionMap)
    (res : Except String Unit) :
    (runCallback d ex res).submitButtonLoading = false ∧
      (runCallback d ex res).propagated = none := by
  cases res <;> exact ⟨rfl, rfl⟩

theorem runCallback_exemptions (d : Dispatched) (ex : ExemptionMap)
    (res : Except String Unit) : (runCallback d ex res).exemptions = ex := by
  cases res <;> rfl

theorem runCallback_logged (d : Dispatched) (ex : ExemptionMap)
    (res : Except String Unit) : (runCallback d ex res).logged = loggedOf res := by
  cases res <;> rfl

theorem lookupField_eq_undef_of_not_mem (resp : Snapshot) (key : String)
    (h : key ∉ resp.map Prod.fst) : lookupField resp key = Value.undef := by
  unfold lookupField
  have : resp.find? (fun p => p.1 == key) = none := by
    rw [List.find?_eq_none]
    intro p hp
    simp only [beq_iff_eq]
    intro hc
    exact h (hc ▸ List.mem_map_of_mem Prod.fst hp)
  rw [this]

theorem strictEq_iff_eq (a b : Value) : strictEq a b = true ↔ a = b := by
  simp [strictEq]

theorem orderComparable_symm (a b : Value) :
    orderComparable a b = orderComparable b a := by
  cases a <;> cases b <;> simp [orderComparable, Bool.and_comm]

theorem jsLtPrim_eq_none_of_not_comparable (a b : Value)
    (h : orderComparable a b = false) : jsLtPrim a b = none := by
  cases a <;> cases b <;> simp_all [orderComparable, jsLtPrim, toNumber]

/-- C3: condition evaluation looks the dependent field up in the snapshot
treating an absent key as undefined; the strict-equality operators compare
with no type coercion (equality holds exactly on structurally equal
values); and the four ordering operators yield false whenever the two
values are not ordering-comparable.  evalCondition is a total pure Lean
function, so it never throws and has no side effects on the snapshot or
any other state. -/
theorem c3_condition_evaluation :
    (∀ (resp : Snapshot) (key : String), key ∉ resp.map Prod.fst →
        lookupField resp key = Value.undef)
  ∧ (∀ a b : Value, strictEq a b = true ↔ a = b)
  ∧ (∀ (c : Condition) (resp : Snapshot),
        (c.operator = Operator.lt ∨ c.operator = Operator.le ∨
         c.operator = Operator.gt ∨ c.operator = Operator.ge) →
        orderComparable (lookupField resp c.dependentField)
          c.dependentFieldValue = false →
        evalCondition c resp = false) := by
  refine ⟨lookupField_eq_undef_of_not_mem, strictEq_iff_eq, ?_⟩
  intro c resp hop hcmp
  have h1 : jsLtPrim (lookupField resp c.dependentField)
      c.dependentFieldValue = none :=
    jsLtPrim_eq_none_of_not_comparable _ _ hcmp
  have h2 : jsLtPrim c.dependentFieldValue
      (lookupField resp c.dependentField) = none :=
    jsLtPrim_eq_none_of_not_comparable _ _
      ((orderComparable_symm _ _).trans hcmp)
  rcases hop with h | h | h | h <;>
    simp [evalCondition, h, jsLt, jsLe, jsGt, jsGe, h1, h2]

/-- Witness for C3 at concrete inputs: key b is absent from the snapshot
and reads as undefined; strict equality on equal numbers; and the
comparison undefined < 3 (undefined is not ordering-comparable with a
number) makes the condition evaluate false. -/
theorem c3_condition_evaluation_witness :
    lookupField [("a", Value.num 1)] "b" = Value.undef
  ∧ (strictEq (Value.num 1) (Value.num 1) = true ↔ Value.num 1 = Value.num 1)
  ∧ evalCondition ⟨"x", Operator.lt, Value.num 3⟩ [("x", Value.undef)] = false :=
  ⟨c3_condition_evaluation.1 [("a", Value.num 1)] "b" (by decide),
   c3_condition_evaluation.2.1 (Value.num 1) (Value.num 1),
   c3_condition_evaluation.2.2 ⟨"x", Operator.lt, Value.num 3⟩
     [("x", Value.undef)] (Or.inl rfl) (by decide)⟩

/-- C10: a condition with operator strict-inequality and a comparison value
other than undefined evaluates true whenever its dependent field is absent
from the snapshot, and a single such condition then makes
checkRemoveValidationCondition report the field exempt. -/
theorem c10_ne_absent_dependent (c : Condition) (resp : Snapshot)
    (hop : c.operator = Operator.ne)
    (hv : c.dependentFieldValue ≠ Value.undef)
    (habs : c.dependentField ∉ resp.map Prod.fst) :
    evalCondition c resp = true ∧
      checkRemoveValidationCondition (some [c]) (some resp) = true := by
  have hlook := lookupField_eq_undef_of_not_mem resp c.dependentField habs
  have heval : evalCondition c resp = true := by
    unfold evalCondition
    rw [hop, hlook]
    have hse : strictEq Value.undef c.dependentFieldValue = false := by
      rw [← Bool.not_eq_true]
      intro hc
      exact hv ((strictEq_iff_eq _ _).mp hc).symm
    simp only []
    rw [hse]
    rfl
  exact ⟨heval, by simp [checkRemoveValidationCondition, heval]⟩

/-- Witness for C10: the example form's password exemption condition
(email strictly unequal to the admin address) evaluates true on the empty
snapshot, where email has no value yet, and exempts the field. -/
theorem c10_ne_absent_dependent_witness :
    evalCondition samplePasswordCond [] = true ∧
      checkRemoveValidationCondition (some [samplePasswordCond]) (some []) = true :=
  c10_ne_absent_dependent samplePasswordCond [] rfl (by decide) (by decide)

/-- C2 counterexample: a present-but-empty removeValidationConditions list
yields exemption true, not false: JavaScript's [].every(...) is true and
the empty array passes the truthiness guard, so
checkRemoveValidationCondition returns true, and the reactive pass marks
the field exempt — the claim requires exemption false for an empty list. -/
theorem c2_counterexample :
    checkRemoveValidationCondition (some ([] : List Condition))
        (some [("a", Value.num 1)]) = true
  ∧ (onChangeRemoveValidationCheck [sampleFieldEmptyConds]
        [("a", Value.num 1)] (fun _ => none)).2 "a" = some true := by
  constructor
  · rfl
  · rfl

/-- C2 (amended): for every key present in the snapshot, the reactive pass
records exemption true iff the field's removeValidationConditions list is
present — even when empty, in which case the check is vacuously true — and
every condition in it evaluates true against the snapshot; when the list is
absent (or no schema field matches the key) the recorded exemption is
false. -/
theorem c2_exemption_characterization (schema : List IFieldSchema)
    (resp : Snapshot) (st : ExemptionMap) (key : String)
    (h : key ∈ resp.map Prod.fst) :
    (onChangeRemoveValidationCheck schema resp st).2 key =
      some (match findRemoveConds schema key with
            | some conds => conds.all (fun c => evalCondition c resp)
            | none => false) := by
  have e := removeValidationPass_snd schema resp (resp.map Prod.fst) st key
  rw [if_pos h] at e
  refine e.trans ?_
  congr 1
  unfold exemptionFor checkRemoveValidationCondition
  cases findRemoveConds schema key <;> rfl

/-- Witness for C2 (amended): key a occurs in the snapshot; with an empty
schema there is no matching field, so the recorded exemption is false. -/
theorem c2_exemption_characterization_witness :
    ("a" ∈ ([("a", Value.num 1)] : Snapshot).map Prod.fst)
  ∧ (onChangeRemoveValidationCheck [] [("a", Value.num 1)]
        (fun _ => none)).2 "a" = some false :=
  ⟨by decide,
   c2_exemption_characterization [] [("a", Value.num 1)] (fun _ => none) "a"
     (by decide)⟩

/-- C9: the reactive exemption recomputation is idempotent — running the
pass a second time with the same schema and snapshot leaves the exemption
map unchanged — and the per-key booleans it computes do not depend on the
previously accumulated exemption state. -/
theorem c9_exemption_idempotent (schema : List IFieldSchema)
    (resp : Snapshot) (st st₁ st₂ : ExemptionMap) :
    (onChangeRemoveValidationCheck schema resp
        ((onChangeRemoveValidationCheck schema resp st).2)).2 =
      (onChangeRemoveValidationCheck schema resp st).2
  ∧ (onChangeRemoveValidationCheck schema resp st₁).1 =
      (onChangeRemoveValidationCheck schema resp st₂).1 := by
  constructor
  · funext k
    have e1 := removeValidationPass_snd schema resp (resp.map Prod.fst)
      ((onChangeRemoveValidationCheck schema resp st).2) k
    have e2 := removeValidationPass_snd schema resp (resp.map Prod.fst) st k
    by_cases h : k ∈ resp.map Prod.fst
    · rw [if_pos h] at e1 e2
      exact e1.trans e2.symm
    · rw [if_neg h] at e1
      exact e1
  · have e1 := removeValidationPass_fst schema resp (resp.map Prod.fst) st₁
    have e2 := removeValidationPass_fst schema resp (resp.map Prod.fst) st₂
    exact e1.trans e2.symm

/-- C4: for a key that lies both in the snapshot (the reactive pass's
candidate set) and among the errored keys (the invalid-submit pass's
candidate set), the two passes record the same exemption boolean — both
reduce to the same pure condition check of the field's removal conditions
against the snapshot. -/
theorem c4_passes_agree (schema : List IFieldSchema) (resp : Snapshot)
    (errors : List (String × JsValue)) (st₁ st₂ : ExemptionMap)
    (key : String) (h₁ : key ∈ resp.map Prod.fst)
    (h₂ : key ∈ errors.map Prod.fst) :
    (onChangeRemoveValidationCheck schema resp st₁).2 key =
      some (exemptionFor schema resp key)
  ∧ (onErrorRemoveValidationCheck errors schema resp st₂).2 key =
      some (exemptionFor schema resp key) := by
  have e1 := removeValidationPass_snd schema resp (resp.map Prod.fst) st₁ key
  have e2 := removeValidationPass_snd schema resp (errors.map Prod.fst) st₂ key
  rw [if_pos h₁] at e1
  rw [if_pos h₂] at e2
  exact ⟨e1, e2⟩

/-- Witness for C4: key a is both in the snapshot and errored; both passes
record exemption false (empty schema: no removal conditions). -/
theorem c4_passes_agree_witness :
    (onChangeRemoveValidationCheck [] [("a", Value.num 1)]
        (fun _ => none)).2 "a" = some (exemptionFor [] [("a", Value.num 1)] "a")
  ∧ (onErrorRemoveValidationCheck [("a", JsValue.obj [])] []
        [("a", Value.num 1)] (fun _ => none)).2 "a" =
      some (exemptionFor [] [("a", Value.num 1)] "a") :=
  c4_passes_agree [] [("a", Value.num 1)] [("a", JsValue.obj [])]
    (fun _ => none) (fun _ => none) "a" (by decide) (by decide)

theorem handleOnInvalidSubmit_dispatched_cr
    (cbS : Snapshot → Except String Unit)
    (cbF : List (String × JsValue) → Except String Unit)
    (errors : List (String × JsValue)) (schema : List IFieldSchema)
    (resp : Snapshot) (st : ExemptionMap) :
    (handleOnInvalidSubmit true (some cbS) (some cbF) errors schema resp
        st).dispatched =
      if (onErrorRemoveValidationCheck (stripRefsObj errors) schema resp st).1
      then Dispatched.successCb resp
      else Dispatched.failureCb (stripRefsObj errors) := by
  simp only [handleOnInvalidSubmit]
  cases hb : (onErrorRemoveValidationCheck (stripRefsObj errors) schema resp st).1 with
  | true => simp [hb, runCallback_dispatched]
  | false => simp [hb, runCallback_dispatched]

theorem onErrorRemoveValidationCheck_fst (errors : List (String × JsValue))
    (schema : List IFieldSchema) (resp : Snapshot) (st : ExemptionMap) :
    (onErrorRemoveValidationCheck errors schema resp st).1 =
      (errors.map Prod.fst).all (exemptionFor schema resp) := by
  show (removeValidationPass schema resp (errors.map Prod.fst) st).1.all id = _
  rw [removeValidationPass_fst]
  induction errors with
  | nil => rfl
  | cons e es ih => simp only [List.map_cons, List.all_cons, ih, id]

/-- C1: on an invalid submit with conditional rendering enabled and both
callbacks supplied, the engine dispatches the success callback with the
current snapshot values iff every field key carrying a validation error has
its removal-condition check evaluate true against the snapshot; otherwise
it dispatches the failure callback with the sanitized errors.  The
hypothesis excludes a field literally named ref, whose error entry the
sanitizer would drop. -/
theorem c1_invalid_submit_override
    (cbS : Snapshot → Except String Unit)
    (cbF : List (String × JsValue) → Except String Unit)
    (errors : List (String × JsValue)) (schema : List IFieldSchema)
    (resp : Snapshot) (st : ExemptionMap)
    (h : "ref" ∉ errors.map Prod.fst) :
    ((handleOnInvalidSubmit true (some cbS) (some cbF) errors schema resp
        st).dispatched = Dispatched.successCb resp ↔
      ∀ k ∈ errors.map Prod.fst, exemptionFor schema resp k = true)
  ∧ ((¬ ∀ k ∈ errors.map Prod.fst, exemptionFor schema resp k = true) →
      (handleOnInvalidSubmit true (some cbS) (some cbF) errors schema resp
        st).dispatched = Dispatched.failureCb (stripRefsObj errors)) := by
  have hd := handleOnInvalidSubmit_dispatched_cr cbS cbF errors schema resp st
  rw [onErrorRemoveValidationCheck_fst, stripRefsObj_keys_of_no_ref errors h]
    at hd
  cases hb : (errors.map Prod.fst).all (exemptionFor schema resp) with
  | true =>
    rw [hb, if_pos rfl] at hd
    have hall : ∀ k ∈ errors.map Prod.fst, exemptionFor schema resp k = true :=
      List.all_eq_true.mp hb
    exact ⟨⟨fun _ => hall, fun _ => hd⟩, fun hc => absurd hall hc⟩
  | false =>
    rw [hb] at hd
    simp only [Bool.false_eq_true, if_false] at hd
    have hnot : ¬ ∀ k ∈ errors.map Prod.fst, exemptionFor schema resp k = true := by
      intro hall
      rw [List.all_eq_true.mpr hall] at hb
      exact Bool.true_eq_false.mp hb
    refine ⟨⟨fun hs => ?_, fun hall => absurd hall hnot⟩, fun _ => hd⟩
    rw [hd] at hs
    exact absurd hs (by simp)

/-- Witness for C1 (Scenario D): errors on fields a and b, snapshot in
which only a is exempted (b has no removal conditions), no field named
ref: the failure callback is dispatched with the sanitized errors for both
fields. -/
theorem c1_invalid_submit_override_witness :
    ("ref" ∉ sampleErrorsD.map Prod.fst)
  ∧ (handleOnInvalidSubmit true (some (fun _ => Except.ok ()))
        (some (fun _ => Except.ok ())) sampleErrorsD sampleSchemaD
        sampleRespD (fun _ => none)).dispatched =
      Dispatched.failureCb (stripRefsObj sampleErrorsD) :=
  ⟨by decide,
   (c1_invalid_submit_override (fun _ => Except.ok ())
       (fun _ => Except.ok ()) sampleErrorsD sampleSchemaD sampleRespD
       (fun _ => none) (by decide)).2 (by decide)⟩

/-- C5 counterexample: sanitization keeps every key except ref, not only
message, type and path — on a field error that also carries a criteria-mode
types entry, the sanitized output still contains the types key, which is
none of message, type or path. -/
theorem c5_counterexample :
    objLookup (stripRefsObj sampleFieldError) "types" =
      some (JsValue.arr [JsValue.prim (Value.str "min"),
                         JsValue.prim (Value.str "max")])
  ∧ "types" ∉ (["message", "type", "path"] : List String) :=
  ⟨rfl, by decide⟩

/-- C5 (amended): the sanitization strips exactly the entries keyed ref, at
every nesting level: primitives are unchanged, arrays are sanitized
elementwise, and in every object the ref key is removed while every other
key is kept with its value recursively sanitized. -/
theorem c5_strip_only_ref :
    (∀ v : Value, stripRefsFromErrors (JsValue.prim v) = JsValue.prim v)
  ∧ (∀ xs : List JsValue,
      stripRefsFromErrors (JsValue.arr xs) =
        JsValue.arr (xs.map stripRefsFromErrors))
  ∧ (∀ (fs : List (String × JsValue)) (k : String),
      objLookup (stripRefsObj fs) k =
        if k = "ref" then none
        else (objLookup fs k).map stripRefsFromErrors) :=
  ⟨fun _ => rfl,
   fun xs => congrArg JsValue.arr (stripRefsArr_eq_map xs),
   stripRefsObj_lookup⟩

/-- C6: for every submit path — valid submit, and invalid submit with or
without conditional rendering — and every outcome of the externally
supplied callbacks (returning or throwing), the handler swallows the
callback error (nothing is propagated to the caller) and the
submit-loading flag is false once the lifecycle completes; moreover the
thrown error is caught and logged inside the engine: each handler's log is
exactly the log of the one callback it awaited — the thrown error when it
threw, empty when it returned. -/
theorem c6_callback_errors_contained
    (onS : Option (Snapshot → Except String Unit))
    (onI : Option (List (String × JsValue) → Except String Unit))
    (enableCR : Bool) (values resp : Snapshot)
    (errors : List (String × JsValue)) (schema : List IFieldSchema)
    (st : ExemptionMap) :
    ((handleOnSubmit onS values st).submitButtonLoading = false
      ∧ (handleOnSubmit onS values st).propagated = none)
  ∧ ((handleOnInvalidSubmit enableCR onS onI errors schema resp
        st).submitButtonLoading = false
      ∧ (handleOnInvalidSubmit enableCR onS onI errors schema resp
        st).propagated = none)
  ∧ (∀ cb : Snapshot → Except String Unit,
      (handleOnSubmit (some cb) values st).logged = loggedOf (cb values))
  ∧ (∀ (cbS : Snapshot → Except String Unit)
       (cbF : List (String × JsValue) → Except String Unit),
      (handleOnInvalidSubmit enableCR (some cbS) (some cbF) errors schema
          resp st).logged =
        if enableCR then
          (if (onErrorRemoveValidationCheck (stripRefsObj errors) schema
                resp st).1
           then loggedOf (cbS resp)
           else loggedOf (cbF (stripRefsObj errors)))
        else loggedOf (cbF (stripRefsObj errors))) := by
  refine ⟨?_, ?_, ?_, ?_⟩
  · cases onS with
    | some cb => exact runCallback_contained _ _ _
    | none => exact ⟨rfl, rfl⟩
  · simp only [handleOnInvalidSubmit]
    cases enableCR with
    | false =>
      simp only [Bool.false_eq_true, if_false]
      cases onI with
      | some cb => exact runCallback_contained _ _ _
      | none => exact ⟨rfl, rfl⟩
    | true =>
      simp only [if_true]
      cases hb : (onErrorRemoveValidationCheck (stripRefsObj errors) schema
          resp st).1 with
      | true =>
        cases onS with
        | some cb => exact runCallback_contained _ _ _
        | none =>
          cases onI with
          | some cb => exact runCallback_contained _ _ _
          | none => exact ⟨rfl, rfl⟩
      | false =>
        cases onI with
        | some cb => exact runCallback_contained _ _ _
        | none => exact ⟨rfl, rfl⟩
  · intro cb
    exact runCallback_logged _ _ _
  · intro cbS cbF
    simp only [handleOnInvalidSubmit]
    cases enableCR with
    | false =>
      simp only [Bool.false_eq_true, if_false]
      exact runCallback_logged _ _ _
    | true =>
      simp only [if_true]
      cases hb : (onErrorRemoveValidationCheck (stripRefsObj errors) schema
          resp st).1 with
      | true => simp [hb, runCallback_logged]
      | false => simp [hb, runCallback_logged]

/-- C7: with enableValidations false no resolver is installed, so the
compiled validation produces no error for any snapshot, and every submit
takes the valid path: the dispatcher runs handleOnSubmit and the success
callback receives the snapshot; the failure callback is never invoked for
validation reasons. -/
theorem c7_validations_disabled (schema : List IFieldSchema)
    (resp : Snapshot) (st : ExemptionMap) (enableCR : Bool)
    (cbS : Snapshot → Except String Unit)
    (cbF : List (String × JsValue) → Except String Unit) :
    formResolver false schema resp = []
  ∧ submitDispatch false enableCR (some cbS) (some cbF) schema resp st =
      handleOnSubmit (some cbS) resp st
  ∧ (submitDispatch false enableCR (some cbS) (some cbF) schema resp
        st).dispatched = Dispatched.successCb resp :=
  ⟨rfl, rfl, runCallback_dispatched _ _ _⟩

/-- C8: with enableConditionalRendering false, after any sequence of
value-change events the visible-field set still equals the set of all
schema keys and the exemption map is still empty (the recomputation effect
never fires), and an invalid submit always dispatches the failure callback
with the sanitized errors, leaving the exemption state untouched — the
valid-by-override path is never taken. -/
theorem c8_conditional_rendering_disabled (schema : List IFieldSchema)
    (events : List Snapshot) (errors : List (String × JsValue))
    (resp : Snapshot) (st : ExemptionMap)
    (cbS : Snapshot → Except String Unit)
    (cbF : List (String × JsValue) → Except String Unit) :
    (events.foldl (fun s v => conditionalRenderingEffect false schema v s)
        (initEngineState schema)).visibleFields = schema.map (fun f => f.key)
  ∧ (events.foldl (fun s v => conditionalRenderingEffect false schema v s)
        (initEngineState schema)).canRemoveValidationForFields =
      (fun _ => none)
  ∧ (handleOnInvalidSubmit false (some cbS) (some cbF) errors schema resp
        st).dispatched = Dispatched.failureCb (stripRefsObj errors)
  ∧ (handleOnInvalidSubmit false (some cbS) (some cbF) errors schema resp
        st).exemptions = st := by
  have hfold : events.foldl (fun s v => conditionalRenderingEffect false schema v s)
      (initEngineState schema) = initEngineState schema := by
    induction events with
    | nil => rfl
    | cons e es ih => exact ih
  refine ⟨?_, ?_, ?_, ?_⟩
  · rw [hfold]; rfl
  · rw [hfold]; rfl
  · exact runCallback_dispatched _ _ _
  · exact runCallback_exemptions _ _ _

end Formix
